import Mathlib

/-!
Verification development for the chatbot383 repository.

Shallow embedding of the core of `chatbot383/bot.py` (the `Bot` dispatch
engine and the `Limiter` cooldown primitive), of `Bot.send_text`'s outbound
text pipeline, and of the inbound-event shape expected by `Bot.run`.

Conventions of the embedding:
* Python `str` values that are inspected character by character (message
  text, outbound chunks) are modelled as `List Char`; strings only used as
  opaque keys (usernames, channels, event types) stay `String`.
* `time.time()` is modelled as an `Int`-valued timestamp supplied by the
  caller; only differences of timestamps are ever inspected by the code.
* A Python `dict` is modelled as an insertion-ordered association list
  without duplicate keys (`dictGet` / `dictInsert`).
* Code that can raise is modelled with an explicit `raised` flag carrying
  the state as mutated up to the raise; an uncaught raise aborts the
  enclosing loop exactly as the exception propagation in the source does.
-/

set_option maxRecDepth 16384

namespace Chatbot383

/-! ### Cooldown limiter (`bot.py`, class `Limiter`) -/

/-- Embeds `Limiter`: `min_interval` and the key→timestamp `_table`.
The key type is a parameter, as the Python dict accepts any hashable key
(the program uses usernames and channel names). -/
structure Limiter (κ : Type) where
  min_interval : Nat
  table : List (κ × Int)
  deriving DecidableEq

/-- Lookup in the association-list model of a Python dict. -/
def dictGet {κ : Type} [DecidableEq κ] (k : κ) : List (κ × Int) → Option Int
  | [] => none
  | (k', v) :: rest => if k' = k then some v else dictGet k rest

/-- Assignment `d[k] = v` in the association-list model of a Python dict:
replaces in place if the key is present, otherwise appends (Python dicts
preserve insertion order). -/
def dictInsert {κ : Type} [DecidableEq κ] (k : κ) (v : Int) :
    List (κ × Int) → List (κ × Int)
  | [] => [(k, v)]
  | (k', v') :: rest =>
      if k' = k then (k, v) :: rest else (k', v') :: dictInsert k v rest

/-- Embeds `Limiter.is_ok`: a key with no entry is allowed; otherwise the
elapsed time since its stored timestamp must strictly exceed
`min_interval`. The source method only reads `_table`, which the embedding
reflects by giving `is_ok` a plain `Bool` result with no successor state. -/
def Limiter.is_ok {κ : Type} [DecidableEq κ] (l : Limiter κ) (k : κ)
    (now : Int) : Bool :=
  match dictGet k l.table with
  | none => true
  | some t => decide (now - t > (l.min_interval : Int))

/-- Result of `Limiter.update`: the table as mutated by the call, plus a
`raised` flag. The source runs `random.choice(self._table)` when the table
exceeds 500 entries; `random.choice` indexes its argument with an integer,
which raises `KeyError` on a dict keyed by strings, so past the cap the
entry has been inserted but the call raises instead of evicting. -/
structure UpdateResult (κ : Type) where
  limiter : Limiter κ
  raised : Bool
  deriving DecidableEq

/-- Embeds `Limiter.update`: store the current time for the key, then, if
the table now has more than 500 entries, attempt the (invalid) random
eviction, which raises. -/
def Limiter.update {κ : Type} [DecidableEq κ] (l : Limiter κ) (k : κ)
    (now : Int) : UpdateResult κ :=
  let t := dictInsert k now l.table
  ⟨⟨l.min_interval, t⟩, decide (t.length > 500)⟩

/-! ### Outbound text pipeline (`bot.py`, `Bot.is_text_safe`,
`Bot.split_multiline`, `Bot.send_text`) -/

/-- Length of `text.encode('utf-8', 'replace')` for a text modelled as a
list of Unicode scalar values. -/
def byteLen (t : List Char) : Nat :=
  (t.map Char.utf8Size).sum

/-- Embeds `Bot.is_text_safe(text, channel)`; `silent` is the bot's
`_silent_channels` set. The checks run in source order: empty-text
exemption, character/byte length caps, reserved leading character
(`./!` backquote `_`), control characters `\x00`–`\x1f`, silenced
channel. -/
def is_text_safe (silent : List String) (text : List Char)
    (channel : String) : Bool :=
  match text with
  | [] => true
  | c :: _ =>
      if text.length > 400 || byteLen text > 450 then false
      else if c ∈ ['.', '/', '!', '\x60', '_'] then false
      else if text.any (fun ch => ch.toNat ≤ 0x1f) then false
      else if channel ∈ silent then false
      else true

/-- Greedy chunk extraction for `split_utf8`: starting from `used` bytes
already committed to the current chunk, take characters while the chunk
stays within `n` encoded bytes; returns the taken characters and the
remainder. -/
def chunkTake (n : Nat) : List Char → Nat → List Char × List Char
  | [], _ => ([], [])
  | c :: cs, used =>
      if used + c.utf8Size ≤ n then
        let r := chunkTake n cs (used + c.utf8Size)
        (c :: r.1, r.2)
      else ([], c :: cs)

/-- Fuel-indexed worker for `split_utf8`; each step emits one nonempty
chunk, so fuel equal to the text length always suffices. -/
def splitUtf8Go (n : Nat) : Nat → List Char → List (List Char)
  | _, [] => []
  | 0, _ :: _ => []
  | fuel + 1, c :: cs =>
      let r := chunkTake n cs c.utf8Size
      (c :: r.1) :: splitUtf8Go n fuel r.2

/-- Modelled from the spec: `split_utf8(text, n)` lives in
`chatbot383/util.py`, which is absent from the sources; per the spec it
splits the text into a finite sequence of chunks at UTF-8-safe boundaries
(never inside one character's encoding), each chunk at most `n` encoded
bytes, whose concatenation is the original text. The model takes
characters greedily into each chunk. -/
def split_utf8 (text : List Char) (n : Nat) : List (List Char) :=
  splitUtf8Go n text.length text

/-- The continuation marker `'(...) '` prefixed to every chunk after the
first by `Bot.split_multiline`. -/
def contMarker : List Char := ['(', '.', '.', '.', ')', ' ']

/-- Embeds `Bot.split_multiline(text, max_length=400)`: the chunks of
`split_utf8(text, max_length)`, with every chunk after the first prefixed
by `'(...) '`. -/
def split_multiline (text : List Char) (max_length : Nat := 400) :
    List (List Char) :=
  match split_utf8 text max_length with
  | [] => []
  | p :: ps => p :: ps.map (fun q => contMarker ++ q)

/-- Removes the 6-character continuation marker from every chunk after the
first; used to state the reconstruction property of the multiline split. -/
def stripContinuations : List (List Char) → List (List Char)
  | [] => []
  | c :: cs => c :: cs.map (List.drop 6)

/-- The two connections owned by the program: `_main_client` and
`_group_client`. -/
inductive Which
  | main
  | group
  deriving DecidableEq

/-- Embeds `Bot.is_group_chat`: channel names starting with `'#_'`
(`startswith` taken on the channel name's character list). -/
def is_group_chat (channel : String) : Bool :=
  List.isPrefixOf ['#', '_'] channel.data

/-- The connection chosen by `Bot.send_text` (and `Bot.join`) for a
channel: the group client for group-marked channel names, the main client
otherwise. -/
def route (channel : String) : Which :=
  if is_group_chat channel then Which.group else Which.main

/-- The chunk-transmission loop of `Bot.send_text`: each line is checked
with `is_text_safe`; an unsafe line makes the method `return`, so nothing
after it is sent; a safe line is passed to `client.privmsg` (recorded here
as destination, line, action flag). -/
def send_lines (silent : List String) (channel : String) (me : Bool) :
    List (List Char) → List (Which × List Char × Bool)
  | [] => []
  | line :: rest =>
      if is_text_safe silent line channel then
        (route channel, line, me) :: send_lines silent channel me rest
      else []

/-- Embeds `Bot.send_text(channel, text, me, reply_to, multiline)`:
optional `'@{nick}, '` reply prefixing, multiline splitting, then the
safety-checked transmission loop. Returns the list of messages actually
handed to `client.privmsg`, in order. -/
def send_text (silent : List String) (channel : String) (text : List Char)
    (me : Bool) (reply_to : Option String) (multiline : Bool) :
    List (Which × List Char × Bool) :=
  let text' := match reply_to with
    | some nick => '@' :: nick.data ++ ',' :: ' ' :: text
    | none => text
  let lines := if multiline then split_multiline text' else [text']
  send_lines silent channel me lines

/-! ### Inbound events and the dispatch engine (`bot.py`, `Bot.run`,
`Bot._process_message`, `Bot._process_text_commands`,
`Bot._process_message_handlers`; `client.py` event producers) -/

/-- An inbound queue item as consumed by `Bot.run` /
`Bot._process_message`: the event fields produced by the `Client` event
methods, plus the `client` reference that `Bot.run` reads from the item. -/
structure Msg where
  event_type : String
  channel : String
  nick : String
  username : String
  text : List Char
  client : Which

/-- Modelled from the spec: the queue-sharing `Client` variant (the one
`app.py` constructs with `inbound_queue=` and whose items `Bot.run` reads
`item['client']` from) is absent from the sources — the `client.py`
present is the superseded variant that owns its own queue and pushes items
without a client reference. Per the spec, each pushed public-message item
carries the event fields together with the originating connection. -/
def push_pubmsg (src : Which) (channel nick username : String)
    (text : List Char) : Msg :=
  ⟨"pubmsg", channel, nick, username, text, src⟩

/-- `session.reply(text, me, multiline)`: sends on the message's channel
with `reply_to` set to the message's `nick`, via `Bot.send_text`. -/
def session_reply (silent : List String) (msg : Msg) (text : List Char)
    (me : Bool) (multiline : Bool) : List (Which × List Char × Bool) :=
  send_text silent msg.channel text me (some msg.nick) multiline

/-- A registered command: the anchored pattern is embedded as the function
`text ↦ re.match(pattern, text)` (`none` = no match, `some m` = the match
data stored into `session.match`); `hid` identifies the handler;
`faults` records whether invoking the handler raises. -/
structure Cmd where
  matchFn : List Char → Option Nat
  hid : Nat
  faults : Bool

/-- `re.match` of a literal pattern: anchored at the start of the text. -/
def litMatch (pat : List Char) : List Char → Option Nat :=
  fun text => if pat.isPrefixOf text then some pat.length else none

/-- The per-event mutable state touched by command dispatch: the
sender-keyed `_user_limiter` and the channel-keyed
`_channel_spam_limiter`. -/
structure ProcState where
  user : Limiter String
  chan : Limiter String
  deriving DecidableEq

/-- Outcome of `Bot._process_text_commands`: the two limiters afterwards,
the handler invoked (if any — the `break` makes at most one fire; the
command's match data having been stored into `session.match` just before
the call), and whether an exception propagated out (either the limiter
eviction `KeyError` or a fault in the invoked handler). -/
structure TCResult where
  user : Limiter String
  chan : Limiter String
  fired : Option Nat
  raised : Bool
  deriving DecidableEq

/-- The pattern scan of `Bot._process_text_commands`: first command whose
pattern matches the text, in registration order. -/
def find_first : List Cmd → List Char → Option (Cmd × Nat)
  | [], _ => none
  | c :: rest, text =>
      match c.matchFn text with
      | some m => some (c, m)
      | none => find_first rest text

/-- Embeds `Bot._process_text_commands`: return if the sender is ignored;
run nothing when the sender is the bot's own nickname; otherwise return
unless both limiters admit; scan the registry for the first match; on a
match record both limiters (each recording may raise past the table cap)
and invoke the handler. -/
def process_text_commands (cmds : List Cmd) (ignored : List String)
    (ourName : String) (msg : Msg) (now : Int) (st : ProcState) : TCResult :=
  if msg.username ∈ ignored then ⟨st.user, st.chan, none, false⟩
  else if msg.username = ourName then ⟨st.user, st.chan, none, false⟩
  else if st.user.is_ok msg.username now then
    if st.chan.is_ok msg.channel now then
      match find_first cmds msg.text with
      | none => ⟨st.user, st.chan, none, false⟩
      | some (c, _) =>
          let u := st.user.update msg.username now
          if u.raised then ⟨u.limiter, st.chan, none, true⟩
          else
            let ch := st.chan.update msg.channel now
            if ch.raised then ⟨u.limiter, ch.limiter, none, true⟩
            else ⟨u.limiter, ch.limiter, some c.hid, c.faults⟩
    else ⟨st.user, st.chan, none, false⟩
  else ⟨st.user, st.chan, none, false⟩

/-- A registered message handler (`register_message_handler`): the event
type it is keyed on, an identifier, and whether invoking it raises. -/
structure MHandler where
  etype : String
  hid : Nat
  faults : Bool

/-- Embeds `Bot._process_message_handlers`: invoke, in registration order,
every handler registered for the event type; a raising handler aborts the
loop (there is no surrounding `try`), reported via the `Bool`. Returns the
identifiers of the handlers actually invoked. -/
def run_handlers : List MHandler → String → List Nat × Bool
  | [], _ => ([], false)
  | h :: rest, et =>
      if h.etype = et then
        if h.faults then ([h.hid], true)
        else
          let r := run_handlers rest et
          (h.hid :: r.1, r.2)
      else run_handlers rest et

/-- Outcome of processing one queue item (or of a whole loop run): the
handlers invoked in order (message handlers, then a fired command
handler), the limiter state afterwards, and whether an exception
propagated (crashing the loop). -/
structure StepResult where
  invoked : List Nat
  st : ProcState
  crashed : Bool
  deriving DecidableEq

/-- Embeds `Bot._process_message`: run all message handlers for the event
type (a fault there propagates before command dispatch is reached), then,
for `'pubmsg'`/`'action'` events, run command dispatch with the bot's own
nickname taken from the item's source client. -/
def process_message (mh : List MHandler) (cmds : List Cmd)
    (ignored : List String) (nickOf : Which → String) (msg : Msg)
    (now : Int) (st : ProcState) : StepResult :=
  let r := run_handlers mh msg.event_type
  if r.2 then ⟨r.1, st, true⟩
  else if msg.event_type = "pubmsg" ∨ msg.event_type = "action" then
    let t := process_text_commands cmds ignored (nickOf msg.client) msg now st
    ⟨r.1 ++ t.fired.toList, ⟨t.user, t.chan⟩, t.raised⟩
  else ⟨r.1, st, false⟩

/-- Embeds the dispatch loop of `Bot.run` over a finite inbound queue
trace (each item paired with the time it is processed): items are
processed in order by `_process_message`, whose call sits outside any
`try`, so the first propagating exception terminates the loop. -/
def run_loop (mh : List MHandler) (cmds : List Cmd)
    (ignored : List String) (nickOf : Which → String) :
    List (Msg × Int) → ProcState → StepResult
  | [], st => ⟨[], st, false⟩
  | (m, t) :: rest, st =>
      let r := process_message mh cmds ignored nickOf m t st
      if r.crashed then ⟨r.invoked, r.st, true⟩
      else
        let r2 := run_loop mh cmds ignored nickOf rest r.st
        ⟨r.invoked ++ r2.invoked, r2.st, r2.crashed⟩

/-- Limiter state reached by recording keys `0, 1, …, n-1` at time `0`
starting from an empty table with `min_interval = 5`; drives the
capacity-cap analysis. -/
def limFold (n : Nat) : Limiter Nat :=
  (List.range n).foldl (fun l k => (l.update k 0).limiter) ⟨5, []⟩

/-- A username made of `i` copies of `'x'`; 500 of these fill the
sender-keyed limiter's table for the capacity analysis. -/
def xKey (i : Nat) : String := String.mk (List.replicate i 'x')

/-- A sender-keyed limiter table already holding 500 distinct usernames,
none of them `"alice"`. -/
def fullTable : List (String × Int) :=
  (List.range 500).map (fun i => (xKey i, 0))

/-- The sender-keyed limiter at its capacity cap. -/
def fullLimiter : Limiter String := ⟨5, fullTable⟩

/-- A pattern matching every text (e.g. `re.match` with pattern `''`). -/
def matchAll : List Char → Option Nat := fun _ => some 0

/-- A registry with a single always-matching command, handler id 7. -/
def c9cmds : List Cmd := [⟨matchAll, 7, false⟩]

/-- A public message from `"alice"` on channel `"#c"`. -/
def c9msg : Msg := ⟨"pubmsg", "#c", "Alice", "alice", ['h', 'i'], Which.main⟩

/-- Dispatch state whose sender-keyed limiter is at the capacity cap and
whose channel-keyed limiter is empty. -/
def c9st : ProcState := ⟨fullLimiter, ⟨1, []⟩⟩

/-- Three handlers registered for the `'welcome'` event type: handler 1
raises when invoked, handlers 0 and 2 do not. -/
def c1handlers : List MHandler :=
  [⟨"welcome", 0, false⟩, ⟨"welcome", 1, true⟩, ⟨"welcome", 2, false⟩]

/-- A `'welcome'` inbound item. -/
def c1msg : Msg := ⟨"welcome", "#c", "n", "u", [], Which.main⟩

/-- Fresh dispatch state: both limiter tables empty. -/
def st0 : ProcState := ⟨⟨5, []⟩, ⟨1, []⟩⟩

/-! ### Helper lemmas about the dict model -/

theorem dictGet_insert_self {κ : Type} [DecidableEq κ] (k : κ) (v : Int)
    (t : List (κ × Int)) : dictGet k (dictInsert k v t) = some v := by
  induction t with
  | nil => simp [dictInsert, dictGet]
  | cons p rest ih =>
      obtain ⟨k', v'⟩ := p
      by_cases h : k' = k
      · simp [dictInsert, dictGet, h]
      · simp [dictInsert, dictGet, h, ih]

theorem dictGet_of_fresh {κ : Type} [DecidableEq κ] (k : κ)
    (t : List (κ × Int)) (h : ∀ p ∈ t, p.1 ≠ k) : dictGet k t = none := by
  induction t with
  | nil => rfl
  | cons p rest ih =>
      obtain ⟨k', v'⟩ := p
      have hk : k' ≠ k := h (k', v') (List.mem_cons_self _ _)
      simp only [dictGet, if_neg hk]
      exact ih fun q hq => h q (List.mem_cons_of_mem _ hq)

theorem dictInsert_of_fresh {κ : Type} [DecidableEq κ] (k : κ) (v : Int)
    (t : List (κ × Int)) (h : ∀ p ∈ t, p.1 ≠ k) :
    dictInsert k v t = t ++ [(k, v)] := by
  induction t with
  | nil => rfl
  | cons p rest ih =>
      obtain ⟨k', v'⟩ := p
      have hk : k' ≠ k := h (k', v') (List.mem_cons_self _ _)
      simp only [dictInsert, if_neg hk, List.cons_append, List.cons.injEq,
        true_and]
      exact ih fun q hq => h q (List.mem_cons_of_mem _ hq)

theorem dictInsert_length_le {κ : Type} [DecidableEq κ] (k : κ) (v : Int)
    (t : List (κ × Int)) : (dictInsert k v t).length ≤ t.length + 1 := by
  induction t with
  | nil => simp [dictInsert]
  | cons p rest ih =>
      obtain ⟨k', v'⟩ := p
      by_cases h : k' = k
      · simp [dictInsert, h]
      · simp only [dictInsert, if_neg h, List.length_cons]
        omega

/-! ### C7 — limiter contract -/

/-- C7: for every key and configured minimum interval, the key is denied
immediately after `update` (`record`) at the same instant; it is allowed
again at any instant strictly more than `min_interval` after the recorded
time; and a key with no recorded timestamp is always allowed. `is_ok` is
a pure function of the limiter in this embedding, mirroring that the
source method only reads the table. -/
theorem limiter_contract {κ : Type} [DecidableEq κ] (l : Limiter κ) (k : κ)
    (now later : Int) :
    ((l.update k now).limiter.is_ok k now = false)
    ∧ (later - now > (l.min_interval : Int) →
        (l.update k now).limiter.is_ok k later = true)
    ∧ (dictGet k l.table = none → l.is_ok k now = true) := by
  refine ⟨?_, ?_, ?_⟩
  · simp only [Limiter.update, Limiter.is_ok, dictGet_insert_self,
      Int.sub_self, decide_eq_false_iff_not]
    exact Int.not_lt.mpr (Int.natCast_nonneg _)
  · intro h
    simp only [Limiter.update, Limiter.is_ok, dictGet_insert_self,
      decide_eq_true_eq]
    exact h
  · intro h
    simp [Limiter.is_ok, h]

/-- Witness for C7 at a concrete instance: key `"a"` recorded at time `0`
in an empty 5-second limiter is allowed again at time `6`, and is allowed
before any recording. -/
theorem limiter_contract_witness :
    ((Limiter.mk 5 ([] : List (String × Int))).update "a" 0).limiter.is_ok
        "a" 6 = true
    ∧ (Limiter.mk 5 ([] : List (String × Int))).is_ok "a" 0 = true :=
  ⟨(limiter_contract ⟨5, []⟩ "a" 0 6).2.1 (by decide),
   (limiter_contract ⟨5, []⟩ "a" 0 6).2.2 rfl⟩

/-! ### C10 — the empty string is unconditionally safe -/

/-- C10: `is_text_safe` accepts the empty string for every channel,
including silenced ones, because the empty-text exemption is the first
check in the method. -/
theorem empty_text_always_safe (silent : List String) (channel : String) :
    is_text_safe silent [] channel = true := rfl

/-! ### C2 — the capacity cap is broken by the eviction path -/

theorem limFold_succ (m : Nat) :
    limFold (m + 1) = ((limFold m).update m 0).limiter := by
  rw [limFold, limFold, List.range_succ, List.foldl_append]
  rfl

theorem limFold_table (n : Nat) :
    (limFold n).table = (List.range n).map (fun k => ((k : Nat), (0 : Int))) := by
  induction n with
  | zero => rfl
  | succ m ih =>
      have hfresh : ∀ p ∈ (limFold m).table, p.1 ≠ m := by
        rw [ih]
        intro p hp
        obtain ⟨k, hk, rfl⟩ := List.mem_map.1 hp
        have := List.mem_range.1 hk
        omega
      rw [limFold_succ, Limiter.update]
      simp only [ih, List.range_succ, List.map_append, List.map_cons,
        List.map_nil]
      rw [← ih, dictInsert_of_fresh _ _ _ hfresh, ih]

/-- C2 (failing run): recording 501 distinct keys from an empty table
leaves the table at 500 entries after 500 calls, and the 501st call both
raises (the eviction path indexes the dict with a random integer, which is
invalid) and leaves 501 entries in the table — the capacity bound does not
hold after that call, and no entry was evicted. -/
theorem cooldown_cap_overflow :
    (limFold 500).table.length = 500
    ∧ ((limFold 500).update 500 0).raised = true
    ∧ ((limFold 500).update 500 0).limiter.table.length = 501 := by
  have hfresh : ∀ p ∈ (limFold 500).table, p.1 ≠ 500 := by
    rw [limFold_table]
    intro p hp
    obtain ⟨k, hk, rfl⟩ := List.mem_map.1 hp
    have := List.mem_range.1 hk
    omega
  have hlen : (limFold 500).table.length = 500 := by
    rw [limFold_table]; simp
  have hins : (dictInsert 500 0 (limFold 500).table).length = 501 := by
    rw [dictInsert_of_fresh _ _ _ hfresh]
    simp [hlen]
  refine ⟨hlen, ?_, ?_⟩
  · simp only [Limiter.update, hins]
    rfl
  · simpa only [Limiter.update] using hins

/-! ### C8 — the bot's own messages never trigger command dispatch -/

/-- C8: when the sender's username equals the bot's own nickname, command
dispatch does nothing: no command handler is invoked, no exception is
raised, and neither limiter's table is touched, regardless of the message
text or the registered commands. -/
theorem own_messages_skip_commands (cmds : List Cmd)
    (ignored : List String) (ourName : String) (msg : Msg) (now : Int)
    (st : ProcState) (h : msg.username = ourName) :
    process_text_commands cmds ignored ourName msg now st
      = ⟨st.user, st.chan, none, false⟩ := by
  by_cases hig : msg.username ∈ ignored
  · simp [process_text_commands, hig]
  · simp [process_text_commands, hig, h]

/-- Witness for C8: a message from the bot itself whose text matches the
sole registered (match-everything) command still fires nothing and leaves
the fresh limiters unchanged. -/
theorem own_messages_skip_commands_witness :
    process_text_commands [⟨fun _ => some 0, 7, false⟩] [] "bot"
        ⟨"pubmsg", "#c", "Bot", "bot", ['!'], Which.main⟩ 0 ⟨⟨5, []⟩, ⟨1, []⟩⟩
      = ⟨⟨5, []⟩, ⟨1, []⟩, none, false⟩ :=
  own_messages_skip_commands _ _ _ _ _ _ rfl

/-! ### C6 — command dispatch is first-match-wins -/

/-- C6: for an admitted message (sender not ignored, not the bot itself,
both limiters allowing, and both tables below the 500-entry cap so that
recording succeeds), if the first registered pattern matches the text then
the first command's handler — and it alone, the scan stopping at the first
match — is invoked, whatever the rest of the registry contains; and a text
matched by no registered pattern invokes no handler, raises nothing, and
leaves the limiters untouched. -/
theorem first_match_wins :
    (∀ (m1 : List Char → Option Nat) (h1 : Nat) (f1 : Bool)
        (rest : List Cmd) (ignored : List String) (ourName : String)
        (msg : Msg) (now : Int) (st : ProcState),
      msg.username ∉ ignored → msg.username ≠ ourName →
      st.user.is_ok msg.username now = true →
      st.chan.is_ok msg.channel now = true →
      st.user.table.length < 500 → st.chan.table.length < 500 →
      (m1 msg.text).isSome = true →
      (process_text_commands (⟨m1, h1, f1⟩ :: rest) ignored ourName msg now
          st).fired = some h1)
    ∧ (∀ (cmds : List Cmd) (ignored : List String) (ourName : String)
        (msg : Msg) (now : Int) (st : ProcState),
      find_first cmds msg.text = none →
      process_text_commands cmds ignored ourName msg now st
        = ⟨st.user, st.chan, none, false⟩) := by
  constructor
  · intro m1 h1 f1 rest ignored ourName msg now st hig hown hu hc hul hcl hm
    obtain ⟨m, hm'⟩ := Option.isSome_iff_exists.1 hm
    have hff : find_first (⟨m1, h1, f1⟩ :: rest) msg.text
        = some (⟨m1, h1, f1⟩, m) := by
      simp [find_first, hm']
    have hru : (st.user.update msg.username now).raised = false := by
      simp only [Limiter.update, decide_eq_false_iff_not, Nat.not_lt]
      have := dictInsert_length_le msg.username now st.user.table
      omega
    have hrc : (st.chan.update msg.channel now).raised = false := by
      simp only [Limiter.update, decide_eq_false_iff_not, Nat.not_lt]
      have := dictInsert_length_le msg.channel now st.chan.table
      omega
    simp [process_text_commands, hig, hown, hu, hc, hff, hru, hrc]
  · intro cmds ignored ourName msg now st hff
    by_cases hig : msg.username ∈ ignored
    · simp [process_text_commands, hig]
    · by_cases hown : msg.username = ourName
      · simp [process_text_commands, hig, hown]
      · by_cases hu : st.user.is_ok msg.username now
        · by_cases hc : st.chan.is_ok msg.channel now
          · simp [process_text_commands, hig, hown, hu, hc, hff]
          · simp [process_text_commands, hig, hown, hu, hc]
        · simp [process_text_commands, hig, hown, hu]

/-- Witness for C6: with literal anchored patterns `"!a"` then `"!"`,
both matching the text `"!ab"`, only the first command (handler 1)
fires. -/
theorem first_match_wins_witness :
    (process_text_commands
        [⟨litMatch ['!', 'a'], 1, false⟩, ⟨litMatch ['!'], 2, false⟩] []
        "bot" ⟨"pubmsg", "#c", "Alice", "alice", ['!', 'a', 'b'], Which.main⟩
        0 ⟨⟨5, []⟩, ⟨1, []⟩⟩).fired = some 1 :=
  first_match_wins.1 (litMatch ['!', 'a']) 1 false [⟨litMatch ['!'], 2, false⟩]
    [] "bot" ⟨"pubmsg", "#c", "Alice", "alice", ['!', 'a', 'b'], Which.main⟩ 0
    ⟨⟨5, []⟩, ⟨1, []⟩⟩ (by decide) (by decide) rfl rfl (by decide) (by decide)
    (by decide)

/-! ### C9 — limiter recording is not atomic past the table cap -/

theorem xKey_ne_alice (i : Nat) : xKey i ≠ "alice" := by
  cases i with
  | zero => decide
  | succ n =>
      intro h
      have hd : List.replicate (n + 1) 'x' = "alice".data :=
        congrArg String.data h
      have ha : 'a' ∈ List.replicate (n + 1) 'x' := by
        rw [hd]; decide
      exact absurd (List.eq_of_mem_replicate ha) (by decide)

theorem fullTable_fresh : ∀ p ∈ fullTable, p.1 ≠ "alice" := by
  intro p hp
  obtain ⟨i, _, rfl⟩ := List.mem_map.1 hp
  exact xKey_ne_alice i

/-- C9 (failing run): with the sender-keyed limiter at its 500-entry cap,
a fresh admitted sender whose text matches the sole registered command
makes the recording step raise after mutating only the sender-keyed
limiter (501 entries): the channel-keyed limiter is never recorded and the
matched handler is never invoked, although the match succeeded and both
limiters had admitted the action. -/
theorem limiter_recording_not_atomic :
    (process_text_commands c9cmds [] "bot" c9msg 0 c9st).raised = true
    ∧ (process_text_commands c9cmds [] "bot" c9msg 0 c9st).fired = none
    ∧ (process_text_commands c9cmds [] "bot" c9msg 0 c9st).chan = c9st.chan
    ∧ (process_text_commands c9cmds [] "bot" c9msg 0
        c9st).user.table.length = 501 := by
  have hget : dictGet "alice" fullTable = none :=
    dictGet_of_fresh _ _ fullTable_fresh
  have hlen : (dictInsert "alice" 0 fullTable).length = 501 := by
    rw [dictInsert_of_fresh _ _ _ fullTable_fresh]
    simp [fullTable]
  have hok : c9st.user.is_ok c9msg.username 0 = true := by
    simp [c9st, c9msg, fullLimiter, Limiter.is_ok, hget]
  have hraised : (c9st.user.update c9msg.username 0).raised = true := by
    simp [c9st, c9msg, fullLimiter, Limiter.update, hlen]
  have hres : process_text_commands c9cmds [] "bot" c9msg 0 c9st
      = ⟨(c9st.user.update c9msg.username 0).limiter, c9st.chan, none,
          true⟩ := by
    have hff : find_first c9cmds c9msg.text = some (⟨matchAll, 7, false⟩, 0) :=
      rfl
    have hcok : c9st.chan.is_ok c9msg.channel 0 = true := rfl
    have hig : c9msg.username ∉ ([] : List String) := by simp
    have hown : c9msg.username ≠ "bot" := by decide
    simp [process_text_commands, hig, hown, hok, hcok, hff, hraised]
  refine ⟨by rw [hres], by rw [hres], by rw [hres], ?_⟩
  rw [hres]
  simpa [c9st, c9msg, fullLimiter, Limiter.update] using hlen

/-! ### C1 — a handler fault crashes the dispatcher loop -/

theorem run_handlers_fault (pre : List MHandler) (f : MHandler)
    (post : List MHandler) (et : String) (hf : f.faults = true)
    (he : f.etype = et)
    (hpre : ∀ h ∈ pre, h.etype = et → h.faults = false) :
    run_handlers (pre ++ f :: post) et
      = ((pre.filter (fun h => decide (h.etype = et))).map MHandler.hid
          ++ [f.hid], true) := by
  induction pre with
  | nil => simp [run_handlers, he, hf]
  | cons h rest ih =>
      by_cases het : h.etype = et
      · have hnf : h.faults = false := hpre h (List.mem_cons_self _ _) het
        have ih' := ih fun q hq hq' => hpre q (List.mem_cons_of_mem _ hq) hq'
        simp [run_handlers, het, hnf, ih']
      · have ih' := ih fun q hq hq' => hpre q (List.mem_cons_of_mem _ hq) hq'
        simp [run_handlers, het, ih']

/-- C1 (counterexample to the claim): with three handlers registered for
`'welcome'` of which the second raises, and two `'welcome'` items queued,
the loop invokes only handlers 0 and 1 and terminates with the propagated
exception: the third handler for the first event and the entire second
event are never processed, and the loop crashes. -/
theorem handler_fault_counterexample :
    run_loop c1handlers [] [] (fun _ => "bot") [(c1msg, 0), (c1msg, 1)] st0
      = ⟨[0, 1], st0, true⟩ := by decide

/-- C1 (amended): a fault in a registered message handler is not
isolated — the exception propagates out of `_process_message` and
terminates the dispatcher loop. Exactly the non-faulting matching handlers
registered before the faulting one run, then the faulting one; handlers
after it for that event, command dispatch for that event, and all
subsequent queued events are never processed, and the limiter state is
left untouched. -/
theorem handler_fault_crashes_loop (pre : List MHandler) (f : MHandler)
    (post : List MHandler) (cmds : List Cmd) (ignored : List String)
    (nickOf : Which → String) (msg : Msg) (t : Int)
    (items : List (Msg × Int)) (st : ProcState) (hf : f.faults = true)
    (he : f.etype = msg.event_type)
    (hpre : ∀ h ∈ pre, h.etype = msg.event_type → h.faults = false) :
    run_loop (pre ++ f :: post) cmds ignored nickOf ((msg, t) :: items) st
      = ⟨(pre.filter (fun h => decide (h.etype = msg.event_type))).map
            MHandler.hid ++ [f.hid], st, true⟩ := by
  have hrh := run_handlers_fault pre f post msg.event_type hf he hpre
  simp [run_loop, process_message, hrh]

/-- Witness for C1 (amended) at a concrete instance: a non-faulting
handler followed by a faulting one, with one further item queued; only
ids 0 and 9 run and the loop crashes with the state untouched. -/
theorem handler_fault_crashes_loop_witness :
    run_loop [⟨"welcome", 0, false⟩, ⟨"welcome", 9, true⟩] [] []
        (fun _ => "bot") [(c1msg, 0), (c1msg, 1)] st0
      = ⟨[0, 9], st0, true⟩ := by
  simpa using handler_fault_crashes_loop [⟨"welcome", 0, false⟩]
    ⟨"welcome", 9, true⟩ [] [] [] (fun _ => "bot") c1msg 0 [(c1msg, 1)] st0
    rfl rfl (by decide)

/-! ### C3 — an unsafe chunk aborts the rest of the multiline send -/

theorem send_lines_stops_at_unsafe (silent : List String) (channel : String)
    (me : Bool) (pre : List (List Char)) (bad : List Char)
    (rest : List (List Char))
    (hpre : ∀ l ∈ pre, is_text_safe silent l channel = true)
    (hbad : is_text_safe silent bad channel = false) :
    send_lines silent channel me (pre ++ bad :: rest)
      = pre.map (fun l => (route channel, l, me)) := by
  induction pre with
  | nil => simp [send_lines, hbad]
  | cons l rest' ih =>
      have hl : is_text_safe silent l channel = true :=
        hpre l (List.mem_cons_self _ _)
      have ih' := ih fun q hq => hpre q (List.mem_cons_of_mem _ hq)
      simp [send_lines, hl, ih']

/-- C3 (amended): in a multiline send, the first chunk failing the safety
check makes `send_text` return: the chunks already sent before it are kept
(not retracted), but the unsafe chunk and every chunk after it — safe or
not — are dropped without being transmitted. -/
theorem send_text_unsafe_chunk_stops (silent : List String)
    (channel : String) (text : List Char) (me : Bool)
    (pre : List (List Char)) (bad : List Char) (rest : List (List Char))
    (hsplit : split_multiline text = pre ++ bad :: rest)
    (hpre : ∀ l ∈ pre, is_text_safe silent l channel = true)
    (hbad : is_text_safe silent bad channel = false) :
    send_text silent channel text me none true
      = pre.map (fun l => (route channel, l, me)) := by
  simp only [send_text, if_pos]
  rw [hsplit]
  exact send_lines_stops_at_unsafe silent channel me pre bad rest hpre hbad

/-- C3 (counterexample to the claim): sending 801 `'a'`s multiline on a
non-silenced channel splits into three chunks; the second chunk (406
characters with its continuation marker) fails the safety check, and the
third chunk, although it passes the safety check, is never transmitted —
only the first chunk is sent. -/
theorem send_text_unsafe_chunk_counterexample :
    send_text [] "#c" (List.replicate 801 'a') false none true
      = [(Which.main, List.replicate 400 'a', false)]
    ∧ is_text_safe [] (contMarker ++ ['a']) "#c" = true
    ∧ (contMarker ++ ['a']) ∈ split_multiline (List.replicate 801 'a') := by
  refine ⟨?_, by decide, by decide⟩
  decide

/-- Witness for C3 (amended) at the same concrete send: the theorem
instantiated at the three chunks of the 801-character text reproduces the
single transmitted message. -/
theorem send_text_unsafe_chunk_stops_witness :
    send_text [] "#c" (List.replicate 801 'a') false none true
      = [List.replicate 400 'a'].map (fun l => (route "#c", l, false)) :=
  send_text_unsafe_chunk_stops [] "#c" (List.replicate 801 'a') false
    [List.replicate 400 'a'] (contMarker ++ List.replicate 400 'a')
    [contMarker ++ ['a']] (by decide) (by decide) (by decide)

/-! ### C4 — properties of the multiline split -/

theorem byteLen_cons (c : Char) (t : List Char) :
    byteLen (c :: t) = c.utf8Size + byteLen t := by
  simp [byteLen]

theorem byteLen_append (a b : List Char) :
    byteLen (a ++ b) = byteLen a + byteLen b := by
  simp [byteLen]

theorem chunkTake_append (n : Nat) (cs : List Char) (u : Nat) :
    (chunkTake n cs u).1 ++ (chunkTake n cs u).2 = cs := by
  induction cs generalizing u with
  | nil => rfl
  | cons c rest ih =>
      by_cases h : u + c.utf8Size ≤ n
      · simp [chunkTake, h, ih]
      · simp [chunkTake, h]

theorem chunkTake_rest_length (n : Nat) (cs : List Char) (u : Nat) :
    (chunkTake n cs u).2.length ≤ cs.length := by
  induction cs generalizing u with
  | nil => simp [chunkTake]
  | cons c rest ih =>
      by_cases h : u + c.utf8Size ≤ n
      · simp only [chunkTake, if_pos h, List.length_cons]
        exact Nat.le_succ_of_le (ih _)
      · simp [chunkTake, h]

theorem chunkTake_bytes (n : Nat) (cs : List Char) (u : Nat) (hu : u ≤ n) :
    u + byteLen (chunkTake n cs u).1 ≤ n := by
  induction cs generalizing u with
  | nil => simpa [chunkTake, byteLen] using hu
  | cons c rest ih =>
      by_cases h : u + c.utf8Size ≤ n
      · have := ih (u + c.utf8Size) h
        simp only [chunkTake, if_pos h, byteLen_cons]
        omega
      · simpa [chunkTake, h, byteLen] using hu

theorem splitUtf8Go_flatten (n : Nat) :
    ∀ (fuel : Nat) (cs : List Char), cs.length ≤ fuel →
      (splitUtf8Go n fuel cs).flatten = cs := by
  intro fuel
  induction fuel with
  | zero =>
      intro cs hcs
      cases cs with
      | nil => rfl
      | cons c rest => simp at hcs
  | succ m ih =>
      intro cs hcs
      cases cs with
      | nil => rfl
      | cons c rest =>
          have hlen : (chunkTake n rest c.utf8Size).2.length ≤ m := by
            have h1 := chunkTake_rest_length n rest c.utf8Size
            simp only [List.length_cons] at hcs
            omega
          simp only [splitUtf8Go, List.flatten_cons, ih _ hlen]
          rw [List.cons_append, chunkTake_append]

theorem splitUtf8Go_byteLen (n : Nat) (h4 : 4 ≤ n) :
    ∀ (fuel : Nat) (cs chunk : List Char),
      chunk ∈ splitUtf8Go n fuel cs → byteLen chunk ≤ n := by
  intro fuel
  induction fuel with
  | zero =>
      intro cs chunk h
      cases cs with
      | nil => simp [splitUtf8Go] at h
      | cons c rest => simp [splitUtf8Go] at h
  | succ m ih =>
      intro cs chunk h
      cases cs with
      | nil => simp [splitUtf8Go] at h
      | cons c rest =>
          simp only [splitUtf8Go, List.mem_cons] at h
          rcases h with h | h
          · subst h
            have hc : c.utf8Size ≤ n := le_trans (Char.utf8Size_le_four c) h4
            have := chunkTake_bytes n rest c.utf8Size hc
            rw [byteLen_cons]
            omega
          · exact ih _ _ h

theorem chunkTake_ascii (n : Nat) (cs : List Char) (u : Nat)
    (h1 : ∀ c ∈ cs, c.utf8Size = 1) (hu : u ≤ n) :
    chunkTake n cs u = (cs.take (n - u), cs.drop (n - u)) := by
  induction cs generalizing u with
  | nil => simp [chunkTake]
  | cons c rest ih =>
      have hc : c.utf8Size = 1 := h1 c (List.mem_cons_self _ _)
      by_cases h : u + 1 ≤ n
      · have ih' := ih (u + 1) (fun q hq => h1 q (List.mem_cons_of_mem _ hq)) h
        have hnu : n - u = (n - (u + 1)) + 1 := by omega
        simp [chunkTake, hc, h, ih', hnu]
      · have hun : u = n := by omega
        have hnu : n - u = 0 := by omega
        simp [chunkTake, hc, h, hnu]

theorem splitUtf8Go_length_ascii (n : Nat) (hn : 1 ≤ n) :
    ∀ (fuel : Nat) (cs : List Char), cs.length ≤ fuel →
      (∀ c ∈ cs, c.utf8Size = 1) →
      (splitUtf8Go n fuel cs).length = (cs.length + n - 1) / n := by
  intro fuel
  induction fuel with
  | zero =>
      intro cs hcs h1
      cases cs with
      | nil => simp [splitUtf8Go, Nat.div_eq_of_lt (by omega : n - 1 < n)]
      | cons c rest => simp at hcs
  | succ m ih =>
      intro cs hcs h1
      cases cs with
      | nil => simp [splitUtf8Go, Nat.div_eq_of_lt (by omega : n - 1 < n)]
      | cons c rest =>
          have hc : c.utf8Size = 1 := h1 c (List.mem_cons_self _ _)
          have hct := chunkTake_ascii n rest 1
            (fun q hq => h1 q (List.mem_cons_of_mem _ hq)) hn
          have hrest : (rest.drop (n - 1)).length ≤ m := by
            simp only [List.length_cons] at hcs
            have := List.length_drop (n - 1) rest
            omega
          have hascii : ∀ q ∈ rest.drop (n - 1), q.utf8Size = 1 :=
            fun q hq => h1 q (List.mem_cons_of_mem _ (List.mem_of_mem_drop hq))
          simp only [splitUtf8Go, hc, hct, List.length_cons,
            ih _ hrest hascii, List.length_drop]
          have hpos : 0 < n := hn
          by_cases hr : rest.length < n
          · have e1 : rest.length + 1 + n - 1 = rest.length + n := by omega
            have e2 : rest.length - (n - 1) = 0 := by omega
            rw [e1, Nat.add_div_right _ hpos, e2,
              Nat.div_eq_of_lt hr, Nat.zero_add,
              Nat.div_eq_of_lt (by omega : n - 1 < n)]
          · have e1 : rest.length + 1 + n - 1 = rest.length + n := by omega
            have e2 : rest.length - (n - 1) + n - 1 = rest.length := by omega
            rw [e1, Nat.add_div_right _ hpos, e2]

theorem split_utf8_flatten (text : List Char) (n : Nat) :
    (split_utf8 text n).flatten = text :=
  splitUtf8Go_flatten n text.length text le_rfl

theorem split_utf8_byteLen (text : List Char) (n : Nat) (h4 : 4 ≤ n) :
    ∀ chunk ∈ split_utf8 text n, byteLen chunk ≤ n :=
  fun chunk h => splitUtf8Go_byteLen n h4 text.length text chunk h

theorem split_utf8_length_ascii (text : List Char) (n : Nat) (hn : 1 ≤ n)
    (h1 : ∀ c ∈ text, c.utf8Size = 1) :
    (split_utf8 text n).length = (text.length + n - 1) / n :=
  splitUtf8Go_length_ascii n hn text.length text le_rfl h1

/-- C4 (amended): for the multiline split with the source's chunk limit of
400 bytes — on text whose characters encode to one byte each the number of
chunks is exactly `⌈L/400⌉`; every chunk, continuation marker included, is
within 406 encoded bytes (hence within the 450-byte safety limit, though
chunks after the first may exceed the 400-character safety limit, see the
counterexample); stripping the markers and concatenating reconstructs the
original text; and every chunk after the first starts with the
marker `'(...) '`. -/
theorem split_multiline_spec (text : List Char) :
    ((∀ c ∈ text, c.utf8Size = 1) →
      (split_multiline text).length = (text.length + 399) / 400)
    ∧ (∀ chunk ∈ split_multiline text, byteLen chunk ≤ 406)
    ∧ (stripContinuations (split_multiline text)).flatten = text
    ∧ (∀ chunk ∈ (split_multiline text).drop 1, chunk.take 6 = contMarker) := by
  have hjoin := split_utf8_flatten text 400
  have hbyte := split_utf8_byteLen text 400 (by omega)
  refine ⟨?_, ?_, ?_, ?_⟩
  · intro h1
    have hlen := split_utf8_length_ascii text 400 (by omega) h1
    have hml : (split_multiline text).length = (split_utf8 text 400).length := by
      unfold split_multiline
      cases split_utf8 text 400 <;> simp
    have e : text.length + 400 - 1 = text.length + 399 := by omega
    rw [hml, hlen, e]
  · intro chunk hchunk
    unfold split_multiline at hchunk
    cases hs : split_utf8 text 400 with
    | nil => rw [hs] at hchunk; simp at hchunk
    | cons p ps =>
        rw [hs] at hchunk
        simp only [List.mem_cons, List.mem_map] at hchunk
        rcases hchunk with rfl | ⟨q, hq, rfl⟩
        · have := hbyte chunk (by rw [hs]; exact List.mem_cons_self _ _)
          omega
        · have := hbyte q (by rw [hs]; exact List.mem_cons_of_mem _ hq)
          rw [byteLen_append]
          have hm : byteLen contMarker = 6 := rfl
          omega
  · unfold split_multiline
    cases hs : split_utf8 text 400 with
    | nil => rw [hs] at hjoin; simpa [stripContinuations] using hjoin
    | cons p ps =>
        rw [hs] at hjoin
        have hdrop : ∀ q : List Char, (contMarker ++ q).drop 6 = q :=
          fun q => rfl
        simpa [stripContinuations, List.map_map, Function.comp_def,
          hdrop] using hjoin
  · intro chunk hchunk
    unfold split_multiline at hchunk
    cases hs : split_utf8 text 400 with
    | nil => rw [hs] at hchunk; simp at hchunk
    | cons p ps =>
        rw [hs] at hchunk
        simp only [List.drop_one, List.tail_cons, List.mem_map] at hchunk
        obtain ⟨q, _, rfl⟩ := hchunk
        rfl

/-- Witness for C4 (amended) at a concrete instance: the two-character
ASCII text `"hi"` splits into one chunk, `⌈2/400⌉ = 1`. -/
theorem split_multiline_spec_witness :
    (split_multiline ['h', 'i']).length = 1 :=
  (split_multiline_spec ['h', 'i']).1 (by decide)

/-- C4 (counterexample to the claim): for 800 `'a'`s, the second chunk —
continuation marker included — has 406 characters, exceeding the
400-character safety limit, so it is not within the maximum character
limit and the safety check rejects it. -/
theorem split_multiline_char_limit_counterexample :
    400 < ((split_multiline (List.replicate 800 'a')).getD 1 []).length
    ∧ is_text_safe [] ((split_multiline (List.replicate 800 'a')).getD 1 [])
        "#c" = false := by
  refine ⟨?_, ?_⟩ <;> decide

/-! ### C5 — replies are routed by channel name, not by the source
connection -/

theorem send_lines_dest (silent : List String) (channel : String)
    (me : Bool) : ∀ lines : List (List Char),
    (send_lines silent channel me lines).all
      (fun o => o.1 == route channel) = true := by
  intro lines
  induction lines with
  | nil => rfl
  | cons l rest ih =>
      by_cases h : is_text_safe silent l channel = true
      · simp [send_lines, h, ih]
      · simp only [Bool.not_eq_true] at h
        simp [send_lines, h]

/-- C5 (counterexample to the claim): a public message arriving from the
group connection on the non-group channel `"#room"` has its reply routed
to the main connection — the Dispatcher does not use the event's
source-connection reference to route the reply, only the channel-name
convention of `send_text`. -/
theorem reply_routing_counterexample :
    session_reply []
        (push_pubmsg Which.group "#room" "alice" "alice" ['h', 'i'])
        ['h', 'i'] false false
      = [(Which.main, ['@', 'a', 'l', 'i', 'c', 'e', ',', ' ', 'h', 'i'],
          false)]
    ∧ (push_pubmsg Which.group "#room" "alice" "alice" ['h', 'i']).client
        = Which.group
    ∧ Which.main ≠ Which.group := by decide

/-- C5 (amended): every inbound item (in the spec-modelled queue-sharing
client) carries its source connection, but `session.reply` routes every
transmitted message through `send_text`'s channel-name rule — group-marked
channels to the group connection, all others to the main connection — so
the reply destination is a function of the channel name alone, and
changing the item's source-connection reference does not change the
reply's destination at all. -/
theorem reply_routing_by_channel (silent : List String)
    (et ch ni un : String) (tx text : List Char) (me multiline : Bool)
    (c1 c2 : Which) :
    session_reply silent ⟨et, ch, ni, un, tx, c1⟩ text me multiline
      = session_reply silent ⟨et, ch, ni, un, tx, c2⟩ text me multiline
    ∧ (session_reply silent ⟨et, ch, ni, un, tx, c1⟩ text me
        multiline).all (fun o => o.1 == route ch) = true :=
  ⟨rfl, send_lines_dest silent ch me _⟩

end Chatbot383
